import Mathlib

/-!
Shallow embedding of the speedtest exporter's measurement-orchestration core
(`internal/exporter/exporter.go` and the exclusivity gate of
`cmd/speedtest_exporter/main.go`).

Conventions of the embedding:
* Go errors become an `Err` inductive; external capabilities may return any
  `Err` value, while the errors the exporter itself constructs get dedicated
  constructors carrying the data the Go message interpolates (for example the
  requested server id).
* `context.Context` is reduced to the one observable fact the core can react
  to: whether the scope is cancelled (`Ctx.cancelled`).
* The Prometheus channel becomes a `List Obs` accumulated in emission order.
* `time.Duration` latency is kept in nanoseconds (`Int`); `Seconds()` is the
  exact rational division by 10^9.  `float64` speeds and distances are
  modelled as `ℚ`; Go's `%.0f` rendering is modelled as rounding to the
  nearest integer (`fmtDistance`).
* The `ServerRunner` stage calls mutate only the measured fields of the
  target (latency / download rate / upload rate), which is the contract of
  the external speedtest-go stage implementations; the orchestrator threads
  the updated server value through the successive stages exactly as the Go
  code shares the mutated `*speedtest.Server`.
-/

namespace SpeedtestExporter

/-- Error values flowing through the orchestration core. -/
inductive Err where
  | external (msg : String)
  | cancelled
  | noServersAvailable
  | noneReturnedFor (id : Int)
  | notFoundFallbackDisabled (id : Int)
deriving Repr, DecidableEq

/-- Caller identity (`speedtest.User`): opaque strings, no parsing. -/
structure User where
  ip : String
  lat : String
  lon : String
  isp : String
deriving Repr, DecidableEq

/-- Candidate / measured target (`speedtest.Server`).  Identity fields plus
the mutable measured fields populated by the stages. -/
structure Server where
  id : String
  name : String
  country : String
  lat : String
  lon : String
  distance : ℚ
  latencyNs : Int := 0
  dlSpeed : ℚ := 0
  ulSpeed : ℚ := 0
deriving Repr, DecidableEq

/-- The one observable fact of a `context.Context` for this core. -/
structure Ctx where
  cancelled : Bool
deriving Repr, DecidableEq

/-- `context.Background()`: a scope that is never cancelled. -/
def Ctx.background : Ctx := ⟨false⟩

/-- `SpeedtestClient` plus the identifier-match capability
(`speedtest.Servers.FindServer`, consumed through the directory client). -/
structure SpeedtestClient where
  fetchUserInfo : Ctx → Except Err User
  fetchServers : Ctx → Except Err (List Server)
  findServer : List Server → List Int → Except Err (List Server)

/-- `ServerRunner`: each stage either fails or produces the measured value it
writes into the target (latency in ns, download rate, upload rate). -/
structure ServerRunner where
  pingTest : Ctx → Server → Except Err Int
  downloadTest : Ctx → Server → Except Err ℚ
  uploadTest : Ctx → Server → Except Err ℚ

/-- The `Exporter` struct. -/
structure Exporter where
  serverID : Int
  serverFallback : Bool
  client : SpeedtestClient
  runner : ServerRunner

/-- `NewWithDeps`. -/
def NewWithDeps (serverID : Int) (serverFallback : Bool)
    (client : SpeedtestClient) (runner : ServerRunner) : Exporter :=
  ⟨serverID, serverFallback, client, runner⟩

/-- The five metric families of the exporter. -/
inductive MetricKind where
  | up
  | scrapeDuration
  | latencySeconds
  | downloadSpeed
  | uploadSpeed
deriving Repr, DecidableEq

/-- One labeled numeric data point sent on the Prometheus channel. -/
structure Obs where
  kind : MetricKind
  value : ℚ
  labels : List String
deriving Repr, DecidableEq

/-- Go's `fmt.Sprintf("%.0f", d)`: render the distance rounded to the
nearest integer (ties differ from Go's half-even only at exact halves,
which no claim touches). -/
def fmtDistance (d : ℚ) : String := toString (d + 1/2).floor

/-- `labelValues`: the ten common label values, in source order. -/
def labelValues (user : User) (server : Server) : List String :=
  [user.lat, user.lon, user.ip, user.isp,
   server.lat, server.lon, server.id, server.name, server.country,
   fmtDistance server.distance]

/-- Whether an `Except` is a success. -/
def isOkE {α : Type} : Except Err α → Bool
  | .ok _ => true
  | .error _ => false

/-- `pingTest`: run the latency stage; on success mutate the target's
latency field and emit a latency observation (seconds). -/
def Exporter.pingTest (e : Exporter) (ctx : Ctx) (user : User)
    (server : Server) : Bool × List Obs × Server :=
  match e.runner.pingTest ctx server with
  | .error _ => (false, [], server)
  | .ok ns =>
      let s := { server with latencyNs := ns }
      (true, [⟨.latencySeconds, (ns : ℚ) / 1000000000, labelValues user s⟩], s)

/-- `downloadTest`: run the download stage; on success mutate the target's
download rate and emit a download observation (bytes/second, unconverted). -/
def Exporter.downloadTest (e : Exporter) (ctx : Ctx) (user : User)
    (server : Server) : Bool × List Obs × Server :=
  match e.runner.downloadTest ctx server with
  | .error _ => (false, [], server)
  | .ok v =>
      let s := { server with dlSpeed := v }
      (true, [⟨.downloadSpeed, v, labelValues user s⟩], s)

/-- `uploadTest`: run the upload stage; on success mutate the target's
upload rate and emit an upload observation (bytes/second, unconverted). -/
def Exporter.uploadTest (e : Exporter) (ctx : Ctx) (user : User)
    (server : Server) : Bool × List Obs × Server :=
  match e.runner.uploadTest ctx server with
  | .error _ => (false, [], server)
  | .ok v =>
      let s := { server with ulSpeed := v }
      (true, [⟨.uploadSpeed, v, labelValues user s⟩], s)

/-- `selectServer`: pick a server based on the exporter configuration. -/
def Exporter.selectServer (e : Exporter) (servers : List Server) :
    Except Err Server :=
  match servers with
  | [] => .error .noServersAvailable
  | s0 :: _ =>
    if e.serverID = -1 then .ok s0
    else
      match e.client.findServer servers [e.serverID] with
      | .error err => .error err
      | .ok [] => .error (.noneReturnedFor e.serverID)
      | .ok (t :: _) =>
          if t.id ≠ toString e.serverID ∧ e.serverFallback = false then
            .error (.notFoundFallbackDisabled e.serverID)
          else .ok t

/-- `speedtest`: fetch identity, fetch candidates, select, then run the three
stages sequentially, combining success exactly as the Go code does
(`ok := ping; ok = download && ok; ok = upload && ok`). -/
def Exporter.speedtest (e : Exporter) (ctx : Ctx) : Bool × List Obs :=
  match e.client.fetchUserInfo ctx with
  | .error _ => (false, [])
  | .ok user =>
    match e.client.fetchServers ctx with
    | .error _ => (false, [])
    | .ok servers =>
      match e.selectServer servers with
      | .error _ => (false, [])
      | .ok server =>
        let p := e.pingTest ctx user server
        let d := e.downloadTest ctx user p.2.2
        let u := e.uploadTest ctx user d.2.2
        (u.1 && (d.1 && p.1), p.2.1 ++ d.2.1 ++ u.2.1)

/-- `CollectWithContext`: run the speedtest, then always emit the up gauge
and the scrape duration.  The wall-clock elapsed time is a parameter of the
embedding. -/
def Exporter.CollectWithContext (e : Exporter) (ctx : Ctx) (elapsed : ℚ) :
    List Obs :=
  let r := e.speedtest ctx
  r.2 ++ [⟨.up, if r.1 then 1 else 0, []⟩, ⟨.scrapeDuration, elapsed, []⟩]

/-- `Collect`: `CollectWithContext` at `context.Background()`. -/
def Exporter.Collect (e : Exporter) (elapsed : ℚ) : List Obs :=
  e.CollectWithContext Ctx.background elapsed

/-- The target as the download stage sees it: after the ping stage possibly
mutated the latency field. -/
def serverAfterPing (e : Exporter) (ctx : Ctx) (server : Server) : Server :=
  match e.runner.pingTest ctx server with
  | .error _ => server
  | .ok ns => { server with latencyNs := ns }

/-- The target as the upload stage sees it: after ping and download possibly
mutated their measured fields. -/
def serverAfterDownload (e : Exporter) (ctx : Ctx) (server : Server) :
    Server :=
  let s1 := serverAfterPing e ctx server
  match e.runner.downloadTest ctx s1 with
  | .error _ => s1
  | .ok v => { s1 with dlSpeed := v }

/-- The per-target observations of one run on the selected target: the
latency, download and upload emissions in stage order. -/
def stageObs (e : Exporter) (ctx : Ctx) (user : User) (server : Server) :
    List Obs :=
  (e.pingTest ctx user server).2.1 ++
  (e.downloadTest ctx user (serverAfterPing e ctx server)).2.1 ++
  (e.uploadTest ctx user (serverAfterDownload e ctx server)).2.1

/-- The run-level success bit of the stage phase, combined exactly as the Go
code combines it (`upload && (download && ping)`). -/
def stagesOkB (e : Exporter) (ctx : Ctx) (server : Server) : Bool :=
  isOkE (e.runner.uploadTest ctx (serverAfterDownload e ctx server)) &&
  (isOkE (e.runner.downloadTest ctx (serverAfterPing e ctx server)) &&
   isOkE (e.runner.pingTest ctx server))

/-- All three stages succeeded on the selected target, each stage applied to
the target value it actually receives. -/
def StagesOk (e : Exporter) (ctx : Ctx) (server : Server) : Prop :=
  isOkE (e.runner.pingTest ctx server) = true ∧
  isOkE (e.runner.downloadTest ctx (serverAfterPing e ctx server)) = true ∧
  isOkE (e.runner.uploadTest ctx (serverAfterDownload e ctx server)) = true

/-- Identity fetch, candidate fetch, selection, and every stage on the
selected target all succeeded. -/
def RunAllOk (e : Exporter) (ctx : Ctx) : Prop :=
  ∃ user servers server,
    e.client.fetchUserInfo ctx = .ok user ∧
    e.client.fetchServers ctx = .ok servers ∧
    e.selectServer servers = .ok server ∧
    StagesOk e ctx server

/-- A run-level failure: identity fetch, candidate fetch, or selection
failed. -/
def RunLevelFailure (e : Exporter) (ctx : Ctx) : Prop :=
  (∃ err, e.client.fetchUserInfo ctx = .error err) ∨
  (∃ user err, e.client.fetchUserInfo ctx = .ok user ∧
    e.client.fetchServers ctx = .error err) ∨
  (∃ user servers err, e.client.fetchUserInfo ctx = .ok user ∧
    e.client.fetchServers ctx = .ok servers ∧
    e.selectServer servers = .error err)

/-- Modelled from the spec (§5, §7): the concrete stage implementations live
in the external speedtest-go library, outside this repository's source; the
spec requires that "when the scope is already cancelled at the time a stage
would run, that stage must report a cancellation failure rather than attempt
the network operation".  A runner with that property: -/
def CancelAware (r : ServerRunner) : Prop :=
  ∀ ctx s, ctx.cancelled = true →
    r.pingTest ctx s = .error .cancelled ∧
    r.downloadTest ctx s = .error .cancelled ∧
    r.uploadTest ctx s = .error .cancelled

/-- Modelled from the spec (§4.1): the per-identifier loop of the repository's
current multi-identifier selection (`selectServers`, exercised by
`exporter_test.go` and called from `main.go`, but absent from
`internal/exporter` in the source tree).  For each requested identifier in
request order: look up via the identifier-match capability; zero results
fail; a substituted identifier with fallback disabled fails naming the
identifier; otherwise the head match is appended. -/
def selectTargets (find : List Server → Int → Except Err (List Server))
    (fallback : Bool) (servers : List Server) :
    List Int → Except Err (List Server)
  | [] => .ok []
  | id :: rest =>
    match find servers id with
    | .error err => .error err
    | .ok [] => .error (.noneReturnedFor id)
    | .ok (t :: _) =>
        if t.id ≠ toString id ∧ fallback = false then
          .error (.notFoundFallbackDisabled id)
        else
          match selectTargets find fallback servers rest with
          | .error err => .error err
          | .ok ts => .ok (t :: ts)

/-- Modelled from the spec (§4.1): multi-identifier selection.  Empty
candidate list fails regardless of request; a request that is exactly the
single sentinel returns the first candidate; otherwise the per-identifier
loop runs. -/
def selectServers (find : List Server → Int → Except Err (List Server))
    (serverIDs : List Int) (fallback : Bool) (servers : List Server) :
    Except Err (List Server) :=
  match servers with
  | [] => .error .noServersAvailable
  | s0 :: _ =>
    if serverIDs = [-1] then .ok [s0]
    else selectTargets find fallback servers serverIDs

/-- The identifier-match capability behaves exactly on identifiers that have
an exact match in the candidate list: it returns a non-empty result headed by
a candidate bearing the requested identifier. -/
def ExactFind (find : List Server → Int → Except Err (List Server))
    (servers : List Server) : Prop :=
  ∀ id : Int, (∃ s ∈ servers, s.id = toString id) →
    ∃ t ts, find servers id = .ok (t :: ts) ∧ t.id = toString id

/-- A concrete exact-match capability: all candidates whose identifier equals
the rendered requested identifier, in candidate order. -/
def filterFind (servers : List Server) (id : Int) :
    Except Err (List Server) :=
  .ok (servers.filter (fun s => s.id = toString id))

/-! ### Exclusivity gate (`metricsHandler` in `cmd/speedtest_exporter/main.go`)

The handler guards the scrape with a non-blocking `mu.TryLock()`: a failed
attempt answers "busy" immediately, a successful one serves the scrape and
releases via `defer mu.Unlock()`.  Two concurrent handler invocations are
modelled as an interleaved transition system over the shared lock bit. -/

/-- Where one handler invocation stands. -/
inductive Phase where
  | start
  | running
  | doneBusy
  | doneServed
deriving Repr, DecidableEq

/-- The shared lock bit plus the two handler invocations. -/
structure GateSys where
  held : Bool
  a : Phase
  b : Phase
deriving Repr, DecidableEq

/-- Both handlers about to try the lock, lock free. -/
def GateSys.init : GateSys := ⟨false, .start, .start⟩

/-- One atomic step of either handler: `TryLock` succeeds only when the lock
is free; a failed `TryLock` answers busy at once; a running handler's only
exit releases the lock. -/
inductive GateStep : GateSys → GateSys → Prop where
  | acquireA (s : GateSys) : s.a = .start → s.held = false →
      GateStep s ⟨true, .running, s.b⟩
  | busyA (s : GateSys) : s.a = .start → s.held = true →
      GateStep s ⟨s.held, .doneBusy, s.b⟩
  | releaseA (s : GateSys) : s.a = .running →
      GateStep s ⟨false, .doneServed, s.b⟩
  | acquireB (s : GateSys) : s.b = .start → s.held = false →
      GateStep s ⟨true, s.a, .running⟩
  | busyB (s : GateSys) : s.b = .start → s.held = true →
      GateStep s ⟨s.held, s.a, .doneBusy⟩
  | releaseB (s : GateSys) : s.b = .running →
      GateStep s ⟨false, s.a, .doneServed⟩

/-- States reachable from the initial state. -/
inductive GateReach : GateSys → Prop where
  | init : GateReach GateSys.init
  | step {s t : GateSys} : GateReach s → GateStep s t → GateReach t

/-- The gate invariant: the lock is held exactly while some handler is in its
guarded run, and never by both. -/
def GateInv (s : GateSys) : Prop :=
  (s.held = true ↔ (s.a = .running ∨ s.b = .running)) ∧
  ¬ (s.a = .running ∧ s.b = .running)

/-! ### Concrete fixtures for witnesses -/

/-- Caller identity used by the repository's tests. -/
def testUser : User := ⟨"1.2.3.4", "40.7128", "-74.0060", "TestISP"⟩

/-- Target used by the repository's tests (distance 123.456). -/
def testServer : Server :=
  { id := "100", name := "TestServer", country := "US",
    lat := "34.0522", lon := "-118.2437", distance := 123456/1000 }

/-- A second target. -/
def testServer2 : Server :=
  { id := "200", name := "TestServer", country := "US",
    lat := "34.0522", lon := "-118.2437", distance := 123456/1000 }

/-- Runner for which every stage succeeds (10 ms latency, 10^8 B/s down,
5·10^7 B/s up). -/
def okRunner : ServerRunner :=
  ⟨fun _ _ => .ok 10000000, fun _ _ => .ok 100000000, fun _ _ => .ok 50000000⟩

/-- Runner whose ping stage fails while download and upload succeed. -/
def pingFailRunner : ServerRunner :=
  ⟨fun _ _ => .error (.external "ping failed"),
   fun _ _ => .ok 100000000, fun _ _ => .ok 50000000⟩

/-- A cancellation-aware runner: cancelled scopes fail every stage at once,
uncancelled scopes behave like `okRunner`. -/
def cancelRunner : ServerRunner :=
  ⟨fun ctx s => if ctx.cancelled then .error .cancelled
                else okRunner.pingTest ctx s,
   fun ctx s => if ctx.cancelled then .error .cancelled
                else okRunner.downloadTest ctx s,
   fun ctx s => if ctx.cancelled then .error .cancelled
                else okRunner.uploadTest ctx s⟩

/-- Client that succeeds, serving `testUser` and one candidate, with the
exact-match capability. -/
def okClient : SpeedtestClient :=
  ⟨fun _ => .ok testUser, fun _ => .ok [testServer],
   fun servers ids => filterFind servers (ids.headD 0)⟩

/-- Client whose identity fetch fails. -/
def userFailClient : SpeedtestClient :=
  ⟨fun _ => .error (.external "network error"),
   fun _ => .ok [testServer],
   fun servers ids => filterFind servers (ids.headD 0)⟩

/-- Client whose identifier-match capability substitutes the nearest
candidate (it returns the candidate list itself) when asked for any
identifier, as speedtest-go does when the requested id has no match. -/
def substClient : SpeedtestClient :=
  ⟨fun _ => .ok testUser, fun _ => .ok [testServer],
   fun servers _ => .ok servers⟩

/-! ## Helper lemmas -/

theorem pingTest_fst (e : Exporter) (ctx : Ctx) (user : User) (s : Server) :
    (e.pingTest ctx user s).1 = isOkE (e.runner.pingTest ctx s) := by
  cases hp : e.runner.pingTest ctx s <;> simp [Exporter.pingTest, isOkE, hp]

theorem pingTest_server (e : Exporter) (ctx : Ctx) (user : User)
    (s : Server) : (e.pingTest ctx user s).2.2 = serverAfterPing e ctx s := by
  cases hp : e.runner.pingTest ctx s <;>
    simp [Exporter.pingTest, serverAfterPing, hp]

theorem downloadTest_fst (e : Exporter) (ctx : Ctx) (user : User)
    (s : Server) :
    (e.downloadTest ctx user s).1 = isOkE (e.runner.downloadTest ctx s) := by
  cases hd : e.runner.downloadTest ctx s <;>
    simp [Exporter.downloadTest, isOkE, hd]

theorem downloadTest_server (e : Exporter) (ctx : Ctx) (user : User)
    (s : Server) :
    (e.downloadTest ctx user (serverAfterPing e ctx s)).2.2 =
      serverAfterDownload e ctx s := by
  cases hd : e.runner.downloadTest ctx (serverAfterPing e ctx s) <;>
    simp [Exporter.downloadTest, serverAfterDownload, hd]

theorem uploadTest_fst (e : Exporter) (ctx : Ctx) (user : User)
    (s : Server) :
    (e.uploadTest ctx user s).1 = isOkE (e.runner.uploadTest ctx s) := by
  cases hu2 : e.runner.uploadTest ctx s <;>
    simp [Exporter.uploadTest, isOkE, hu2]

/-- Case analysis on an `Except` value as equations, leaving the goal
untouched. -/
theorem except_cases {α : Type} (x : Except Err α) :
    (∃ a, x = .ok a) ∨ (∃ err, x = .error err) := by
  cases x with
  | ok a => exact Or.inl ⟨a, rfl⟩
  | error err => exact Or.inr ⟨err, rfl⟩

/-- The common labels ignore every measured field the stages mutate. -/
theorem labelValues_afterPing (e : Exporter) (ctx : Ctx) (user : User)
    (s : Server) :
    labelValues user (serverAfterPing e ctx s) = labelValues user s := by
  unfold serverAfterPing
  cases e.runner.pingTest ctx s <;> rfl

theorem labelValues_afterDownload (e : Exporter) (ctx : Ctx) (user : User)
    (s : Server) :
    labelValues user (serverAfterDownload e ctx s) = labelValues user s := by
  cases hd : e.runner.downloadTest ctx (serverAfterPing e ctx s) with
  | error err =>
      have h1 : serverAfterDownload e ctx s = serverAfterPing e ctx s := by
        simp [serverAfterDownload, hd]
      rw [h1, labelValues_afterPing]
  | ok v =>
      have h1 : serverAfterDownload e ctx s =
          { serverAfterPing e ctx s with dlSpeed := v } := by
        simp [serverAfterDownload, hd]
      rw [h1]
      exact labelValues_afterPing e ctx user s

theorem pingTest_obs (e : Exporter) (ctx : Ctx) (user : User) (s : Server) :
    (e.pingTest ctx user s).2.1 =
      match e.runner.pingTest ctx s with
      | .error _ => []
      | .ok ns =>
          [⟨.latencySeconds, (ns : ℚ) / 1000000000, labelValues user s⟩] := by
  cases hp : e.runner.pingTest ctx s <;>
    simp [Exporter.pingTest, labelValues, hp]

theorem downloadTest_obs (e : Exporter) (ctx : Ctx) (user : User)
    (s : Server) :
    (e.downloadTest ctx user s).2.1 =
      match e.runner.downloadTest ctx s with
      | .error _ => []
      | .ok v => [⟨.downloadSpeed, v, labelValues user s⟩] := by
  cases hd : e.runner.downloadTest ctx s <;>
    simp [Exporter.downloadTest, labelValues, hd]

theorem uploadTest_obs (e : Exporter) (ctx : Ctx) (user : User)
    (s : Server) :
    (e.uploadTest ctx user s).2.1 =
      match e.runner.uploadTest ctx s with
      | .error _ => []
      | .ok v => [⟨.uploadSpeed, v, labelValues user s⟩] := by
  cases hu2 : e.runner.uploadTest ctx s <;>
    simp [Exporter.uploadTest, labelValues, hu2]

/-- The per-target observations, stage by stage, all labelled with the
selected target's common labels. -/
theorem stageObs_eq (e : Exporter) (ctx : Ctx) (user : User)
    (server : Server) :
    stageObs e ctx user server =
      (match e.runner.pingTest ctx server with
        | .error _ => []
        | .ok ns =>
            [⟨.latencySeconds, (ns : ℚ) / 1000000000,
              labelValues user server⟩]) ++
      (match e.runner.downloadTest ctx (serverAfterPing e ctx server) with
        | .error _ => []
        | .ok v => [⟨.downloadSpeed, v, labelValues user server⟩]) ++
      (match e.runner.uploadTest ctx (serverAfterDownload e ctx server) with
        | .error _ => []
        | .ok v => [⟨.uploadSpeed, v, labelValues user server⟩]) := by
  unfold stageObs
  rw [pingTest_obs, downloadTest_obs, uploadTest_obs]
  simp only [labelValues_afterPing, labelValues_afterDownload]

/-- When identity fetch, candidate fetch and selection succeed, `speedtest`
is exactly the stage phase: its success bit and the per-target
observations. -/
theorem speedtest_of_ok (e : Exporter) (ctx : Ctx) (user : User)
    (servers : List Server) (server : Server)
    (hu : e.client.fetchUserInfo ctx = .ok user)
    (hs : e.client.fetchServers ctx = .ok servers)
    (hsel : e.selectServer servers = .ok server) :
    e.speedtest ctx = (stagesOkB e ctx server, stageObs e ctx user server) := by
  simp only [Exporter.speedtest, hu, hs, hsel]
  simp [stagesOkB, stageObs, pingTest_fst, downloadTest_fst, uploadTest_fst,
    pingTest_server, downloadTest_server]

/-- A run-level failure makes `speedtest` return no observations and
failure. -/
theorem speedtest_of_fail (e : Exporter) (ctx : Ctx)
    (h : RunLevelFailure e ctx) : e.speedtest ctx = (false, []) := by
  rcases h with ⟨err, hu⟩ | ⟨user, err, hu, hs⟩ |
    ⟨user, servers, err, hu, hs, hsel⟩
  · simp [Exporter.speedtest, hu]
  · simp [Exporter.speedtest, hu, hs]
  · simp [Exporter.speedtest, hu, hs, hsel]

/-- Every run either fails at the run level or fixes a user, a candidate
list and a selected target. -/
theorem run_dichotomy (e : Exporter) (ctx : Ctx) :
    RunLevelFailure e ctx ∨
      ∃ user servers server,
        e.client.fetchUserInfo ctx = .ok user ∧
        e.client.fetchServers ctx = .ok servers ∧
        e.selectServer servers = .ok server := by
  rcases except_cases (e.client.fetchUserInfo ctx) with ⟨user, hu⟩ | ⟨err, hu⟩
  · rcases except_cases (e.client.fetchServers ctx) with
      ⟨servers, hs⟩ | ⟨err, hs⟩
    · rcases except_cases (e.selectServer servers) with
        ⟨server, hsel⟩ | ⟨err, hsel⟩
      · exact Or.inr ⟨user, servers, server, hu, hs, hsel⟩
      · exact Or.inl (Or.inr (Or.inr ⟨user, servers, err, hu, hs, hsel⟩))
    · exact Or.inl (Or.inr (Or.inl ⟨user, err, hu, hs⟩))
  · exact Or.inl (Or.inl ⟨err, hu⟩)

/-- Every per-target observation has one of the three stage kinds and
carries exactly the common label values of the selected target. -/
theorem stageObs_kinds (e : Exporter) (ctx : Ctx) (user : User)
    (server : Server) (o : Obs) (ho : o ∈ stageObs e ctx user server) :
    (o.kind = .latencySeconds ∨ o.kind = .downloadSpeed ∨
      o.kind = .uploadSpeed) ∧ o.labels = labelValues user server := by
  rw [stageObs_eq, List.append_assoc] at ho
  rcases List.mem_append.mp ho with h | h
  · rcases hp : e.runner.pingTest ctx server with e1 | ns <;> simp [hp] at h
    subst h
    exact ⟨Or.inl rfl, rfl⟩
  · rcases List.mem_append.mp h with h2 | h2
    · rcases hd : e.runner.downloadTest ctx (serverAfterPing e ctx server)
        with e2 | dv <;> simp [hd] at h2
      subst h2
      exact ⟨Or.inr (Or.inl rfl), rfl⟩
    · rcases hu2 :
          e.runner.uploadTest ctx (serverAfterDownload e ctx server)
        with e3 | uv <;> simp [hu2] at h2
      subst h2
      exact ⟨Or.inr (Or.inr rfl), rfl⟩

/-- Presence of each stage kind among the per-target observations is exactly
that stage's success. -/
theorem stageObs_mem_iff (e : Exporter) (ctx : Ctx) (user : User)
    (server : Server) :
    ((∃ o ∈ stageObs e ctx user server, o.kind = .latencySeconds) ↔
      isOkE (e.runner.pingTest ctx server) = true) ∧
    ((∃ o ∈ stageObs e ctx user server, o.kind = .downloadSpeed) ↔
      isOkE (e.runner.downloadTest ctx (serverAfterPing e ctx server)) =
        true) ∧
    ((∃ o ∈ stageObs e ctx user server, o.kind = .uploadSpeed) ↔
      isOkE (e.runner.uploadTest ctx (serverAfterDownload e ctx server)) =
        true) := by
  rcases hp : e.runner.pingTest ctx server with e1 | ns <;>
  rcases hd : e.runner.downloadTest ctx (serverAfterPing e ctx server)
    with e2 | dv <;>
  rcases hu2 : e.runner.uploadTest ctx (serverAfterDownload e ctx server)
    with e3 | uv <;>
  · simp [stageObs, Exporter.pingTest, Exporter.downloadTest,
      Exporter.uploadTest, isOkE, hp, hd, hu2]

/-- The Go boolean accumulation equals the conjunction of the three stage
successes. -/
theorem stagesOkB_iff (e : Exporter) (ctx : Ctx) (server : Server) :
    stagesOkB e ctx server = true ↔ StagesOk e ctx server := by
  simp only [stagesOkB, StagesOk, Bool.and_eq_true]
  tauto

/-! ## Claim theorems -/

/-- C10: for every client and runner behaviour and every elapsed time,
`Collect` produces exactly the observation sequence of `CollectWithContext`
at a background, never-cancelled scope. -/
theorem Collect_is_CollectWithContext_background (e : Exporter)
    (elapsed : ℚ) :
    e.Collect elapsed = e.CollectWithContext Ctx.background elapsed ∧
    Ctx.background.cancelled = false :=
  ⟨rfl, rfl⟩

/-- C1: for every run of `CollectWithContext`, the emitted up observation
has value 1 iff the identity fetch, the candidate-list fetch, server
selection, and every stage (latency, download, upload) on the selected
target succeeded; if any failed, the up observation has value 0. -/
theorem up_gauge_iff_all_ok (e : Exporter) (ctx : Ctx) (elapsed : ℚ) :
    ((⟨.up, 1, []⟩ : Obs) ∈ e.CollectWithContext ctx elapsed ↔
      RunAllOk e ctx) ∧
    ((⟨.up, 0, []⟩ : Obs) ∈ e.CollectWithContext ctx elapsed ↔
      ¬ RunAllOk e ctx) := by
  rcases run_dichotomy e ctx with hfail |
    ⟨user, servers, server, hu, hs, hsel⟩
  · have hsp := speedtest_of_fail e ctx hfail
    have hnru : ¬ RunAllOk e ctx := by
      rintro ⟨u2, s2, sv2, hu2, hs2, hsel2, hst⟩
      rcases hfail with ⟨err, h⟩ | ⟨u3, err, h3, h⟩ |
        ⟨u3, s3, err, h3u, h3s, h⟩
      · rw [h] at hu2
        exact absurd hu2 (by simp)
      · rw [h] at hs2
        exact absurd hs2 (by simp)
      · have e2 : s3 = s2 := Except.ok.inj (h3s.symm.trans hs2)
        rw [e2, hsel2] at h
        exact absurd h (by simp)
    simp only [Exporter.CollectWithContext, hsp, List.nil_append]
    constructor
    · constructor
      · intro hin
        exfalso
        simp at hin
      · intro h
        exact absurd h hnru
    · constructor
      · intro _
        exact hnru
      · intro _
        simp
  · have hsp := speedtest_of_ok e ctx user servers server hu hs hsel
    have hiff : RunAllOk e ctx ↔ StagesOk e ctx server := by
      constructor
      · rintro ⟨u2, s2, sv2, hu2, hs2, hsel2, hst⟩
        have e1 : s2 = servers := Except.ok.inj (hs2.symm.trans hs)
        subst e1
        have e2 : sv2 = server := Except.ok.inj (hsel2.symm.trans hsel)
        subst e2
        exact hst
      · intro hst
        exact ⟨user, servers, server, hu, hs, hsel, hst⟩
    have hnm : ∀ o ∈ stageObs e ctx user server,
        o.kind ≠ MetricKind.up := by
      intro o ho
      rcases (stageObs_kinds e ctx user server o ho).1 with h | h | h <;>
        simp [h]
    rw [hiff, ← stagesOkB_iff]
    simp only [Exporter.CollectWithContext, hsp]
    cases hb : stagesOkB e ctx server
    · constructor
      · constructor
        · intro hin
          rcases List.mem_append.mp hin with h | h
          · exact absurd rfl (hnm _ h)
          · exfalso
            simp at h
        · intro h
          exact absurd h (by simp)
      · constructor
        · intro _
          simp
        · intro _
          exact List.mem_append.mpr (Or.inr (by simp))
    · constructor
      · constructor
        · intro _
          rfl
        · intro _
          exact List.mem_append.mpr (Or.inr (by simp))
      · constructor
        · intro hin
          rcases List.mem_append.mp hin with h | h
          · exact absurd rfl (hnm _ h)
          · exfalso
            simp at h
        · intro h
          exact absurd rfl h

/-- C2: for every selected target, each of the three stages is attempted
regardless of whether an earlier stage failed: the presence of each stage's
observation in the output is exactly that stage's own success, with no
condition on the outcome of earlier stages. -/
theorem stages_never_short_circuit (e : Exporter) (ctx : Ctx) (elapsed : ℚ)
    (user : User) (servers : List Server) (server : Server)
    (hu : e.client.fetchUserInfo ctx = .ok user)
    (hs : e.client.fetchServers ctx = .ok servers)
    (hsel : e.selectServer servers = .ok server) :
    ((∃ o ∈ e.CollectWithContext ctx elapsed,
        o.kind = MetricKind.latencySeconds) ↔
      isOkE (e.runner.pingTest ctx server) = true) ∧
    ((∃ o ∈ e.CollectWithContext ctx elapsed,
        o.kind = MetricKind.downloadSpeed) ↔
      isOkE (e.runner.downloadTest ctx (serverAfterPing e ctx server)) =
        true) ∧
    ((∃ o ∈ e.CollectWithContext ctx elapsed,
        o.kind = MetricKind.uploadSpeed) ↔
      isOkE (e.runner.uploadTest ctx (serverAfterDownload e ctx server)) =
        true) := by
  have hsp := speedtest_of_ok e ctx user servers server hu hs hsel
  have hm := stageObs_mem_iff e ctx user server
  have hbridge : ∀ k : MetricKind, k ≠ .up → k ≠ .scrapeDuration →
      ((∃ o ∈ e.CollectWithContext ctx elapsed, o.kind = k) ↔
        (∃ o ∈ stageObs e ctx user server, o.kind = k)) := by
    intro k hk1 hk2
    simp only [Exporter.CollectWithContext, hsp]
    constructor
    · rintro ⟨o, ho, hk⟩
      rcases List.mem_append.mp ho with h | h
      · exact ⟨o, h, hk⟩
      · exfalso
        simp at h
        rcases h with rfl | rfl
        · exact hk1 hk.symm
        · exact hk2 hk.symm
    · rintro ⟨o, ho, hk⟩
      exact ⟨o, List.mem_append.mpr (Or.inl ho), hk⟩
  exact ⟨(hbridge _ (by simp) (by simp)).trans hm.1,
    (hbridge _ (by simp) (by simp)).trans hm.2.1,
    (hbridge _ (by simp) (by simp)).trans hm.2.2⟩

/-- C2 witness: with the ping stage failing and download/upload succeeding
on one concrete target, the download and upload observations are still
emitted. -/
theorem stages_never_short_circuit_witness :
    (∃ o ∈ (NewWithDeps (-1) false okClient pingFailRunner).CollectWithContext
        ⟨false⟩ 1, o.kind = MetricKind.downloadSpeed) ∧
    (∃ o ∈ (NewWithDeps (-1) false okClient pingFailRunner).CollectWithContext
        ⟨false⟩ 1, o.kind = MetricKind.uploadSpeed) :=
  ⟨(stages_never_short_circuit (NewWithDeps (-1) false okClient
      pingFailRunner) ⟨false⟩ 1 testUser [testServer] testServer
      rfl rfl (by rfl)).2.1.mpr rfl,
   (stages_never_short_circuit (NewWithDeps (-1) false okClient
      pingFailRunner) ⟨false⟩ 1 testUser [testServer] testServer
      rfl rfl (by rfl)).2.2.mpr rfl⟩

/-- C3: a run-level failure (identity fetch, candidate fetch or selection)
makes `CollectWithContext` emit exactly the up observation with value 0 and
the scrape-duration observation, and nothing else; moreover on every run the
output ends with the up and duration observations, and everything before
them is a per-target stage observation. -/
theorem run_failure_degraded (e : Exporter) (ctx : Ctx) (elapsed : ℚ) :
    (RunLevelFailure e ctx →
      e.CollectWithContext ctx elapsed =
        [⟨.up, 0, []⟩, ⟨.scrapeDuration, elapsed, []⟩]) ∧
    (∃ l v, e.CollectWithContext ctx elapsed =
        l ++ [⟨.up, v, []⟩, ⟨.scrapeDuration, elapsed, []⟩] ∧
        ∀ o ∈ l, o.kind ≠ MetricKind.up ∧
          o.kind ≠ MetricKind.scrapeDuration) := by
  constructor
  · intro hfail
    simp [Exporter.CollectWithContext, speedtest_of_fail e ctx hfail]
  · rcases run_dichotomy e ctx with hfail |
      ⟨user, servers, server, hu, hs, hsel⟩
    · refine ⟨[], 0, ?_, by simp⟩
      simp [Exporter.CollectWithContext, speedtest_of_fail e ctx hfail]
    · refine ⟨stageObs e ctx user server,
        if stagesOkB e ctx server then 1 else 0, ?_, ?_⟩
      · simp [Exporter.CollectWithContext,
          speedtest_of_ok e ctx user servers server hu hs hsel]
      · intro o ho
        rcases (stageObs_kinds e ctx user server o ho).1 with h | h | h <;>
          simp [h]

/-- C3 witness: a failing identity fetch yields exactly the degraded
up=0 / duration pair. -/
theorem run_failure_degraded_witness :
    (NewWithDeps (-1) false userFailClient okRunner).CollectWithContext
        ⟨false⟩ 2 = [⟨.up, 0, []⟩, ⟨.scrapeDuration, 2, []⟩] :=
  (run_failure_degraded (NewWithDeps (-1) false userFailClient okRunner)
      ⟨false⟩ 2).1 (Or.inl ⟨Err.external "network error", rfl⟩)

/-- C5: with a non-empty candidate list and the sentinel request (-1),
selection returns the first candidate; with the empty candidate list,
selection fails regardless of the configuration. -/
theorem selectServer_sentinel_and_empty (e : Exporter)
    (h : e.serverID = -1) :
    (∀ s rest, e.selectServer (s :: rest) = .ok s) ∧
    (∀ e2 : Exporter, e2.selectServer [] = .error .noServersAvailable) := by
  constructor
  · intro s rest
    simp [Exporter.selectServer, h]
  · intro e2
    rfl

/-- C5 witness. -/
theorem selectServer_sentinel_and_empty_witness :
    (NewWithDeps (-1) false okClient okRunner).selectServer
        [testServer, testServer2] = .ok testServer ∧
    (NewWithDeps 5 true okClient okRunner).selectServer [] =
      .error .noServersAvailable :=
  ⟨(selectServer_sentinel_and_empty
      (NewWithDeps (-1) false okClient okRunner) rfl).1 testServer
      [testServer2],
   (selectServer_sentinel_and_empty
      (NewWithDeps (-1) false okClient okRunner) rfl).2
      (NewWithDeps 5 true okClient okRunner)⟩

/-- C6: for a non-sentinel request on a non-empty candidate list, if the
identifier-match capability returns a candidate whose identifier differs
from the requested one and fallback is disabled, selection fails with the
error naming the missing identifier; if fallback is enabled the substituted
candidate is accepted; if the capability returns zero results, selection
fails. -/
theorem selectServer_fallback_policy (e : Exporter) (servers : List Server)
    (s0 : Server) (rest : List Server) (hne : servers = s0 :: rest)
    (hid : e.serverID ≠ -1) :
    (∀ t ts, e.client.findServer servers [e.serverID] = .ok (t :: ts) →
      t.id ≠ toString e.serverID → e.serverFallback = false →
      e.selectServer servers =
        .error (.notFoundFallbackDisabled e.serverID)) ∧
    (∀ t ts, e.client.findServer servers [e.serverID] = .ok (t :: ts) →
      t.id ≠ toString e.serverID → e.serverFallback = true →
      e.selectServer servers = .ok t) ∧
    (e.client.findServer servers [e.serverID] = .ok [] →
      e.selectServer servers = .error (.noneReturnedFor e.serverID)) := by
  subst hne
  refine ⟨?_, ?_, ?_⟩
  · intro t ts hf hdiff hfb
    simp [Exporter.selectServer, hid, hf, hdiff, hfb]
  · intro t ts hf hdiff hfb
    simp [Exporter.selectServer, hid, hf, hfb]
  · intro hf
    simp [Exporter.selectServer, hid, hf]

/-- C6 witness: requested id 999 against a candidate list holding only id
100, with a substituting match capability: fallback off fails naming 999,
fallback on accepts the substitute; an empty match result fails. -/
theorem selectServer_fallback_policy_witness :
    (NewWithDeps 999 false substClient okRunner).selectServer [testServer] =
      .error (.notFoundFallbackDisabled 999) ∧
    (NewWithDeps 999 true substClient okRunner).selectServer [testServer] =
      .ok testServer ∧
    (NewWithDeps 999 false okClient okRunner).selectServer [testServer] =
      .error (.noneReturnedFor 999) :=
  ⟨(selectServer_fallback_policy (NewWithDeps 999 false substClient okRunner)
      [testServer] testServer [] rfl (by decide)).1 testServer [] rfl
      (by decide) rfl,
   (selectServer_fallback_policy (NewWithDeps 999 true substClient okRunner)
      [testServer] testServer [] rfl (by decide)).2.1 testServer [] rfl
      (by decide) rfl,
   (selectServer_fallback_policy (NewWithDeps 999 false okClient okRunner)
      [testServer] testServer [] rfl (by decide)).2.2 (by rfl)⟩

/-- C7: every latency, download and upload observation of a run carries
exactly the ten label values — caller latitude, caller longitude, caller IP,
caller ISP, target latitude, target longitude, target identifier, target
name, target country, and the distance rendered as a fixed-precision decimal
string — identical in content and order across the three metric kinds. -/
theorem labels_ten_uniform (e : Exporter) (ctx : Ctx) (elapsed : ℚ)
    (user : User) (servers : List Server) (server : Server)
    (hu : e.client.fetchUserInfo ctx = .ok user)
    (hs : e.client.fetchServers ctx = .ok servers)
    (hsel : e.selectServer servers = .ok server) :
    (∀ o ∈ e.CollectWithContext ctx elapsed,
      (o.kind = MetricKind.latencySeconds ∨
        o.kind = MetricKind.downloadSpeed ∨
        o.kind = MetricKind.uploadSpeed) →
      o.labels = [user.lat, user.lon, user.ip, user.isp, server.lat,
        server.lon, server.id, server.name, server.country,
        fmtDistance server.distance]) ∧
    (labelValues user server).length = 10 := by
  have hsp := speedtest_of_ok e ctx user servers server hu hs hsel
  constructor
  · intro o ho hk
    simp only [Exporter.CollectWithContext, hsp] at ho
    rcases List.mem_append.mp ho with h | h
    · exact (stageObs_kinds e ctx user server o h).2
    · exfalso
      simp at h
      rcases h with rfl | rfl <;> simp at hk
  · rfl

/-- C7 witness. -/
theorem labels_ten_uniform_witness :
    (labelValues testUser testServer).length = 10 :=
  (labels_ten_uniform (NewWithDeps (-1) false okClient okRunner) ⟨false⟩ 1
      testUser [testServer] testServer rfl rfl (by rfl)).2

/-- C8: for a cancellation-aware runner and an already-cancelled scope,
every stage reports a cancellation failure instead of a measured value, and
the orchestrator treats this like any other stage failure: it continues
through all stages and emits the degraded up=0 / duration pair. -/
theorem cancelled_stage_failure (e : Exporter) (ctx : Ctx) (elapsed : ℚ)
    (user : User) (servers : List Server) (server : Server)
    (hr : CancelAware e.runner) (hc : ctx.cancelled = true)
    (hu : e.client.fetchUserInfo ctx = .ok user)
    (hs : e.client.fetchServers ctx = .ok servers)
    (hsel : e.selectServer servers = .ok server) :
    (∀ s2 : Server,
      e.runner.pingTest ctx s2 = .error .cancelled ∧
      e.runner.downloadTest ctx s2 = .error .cancelled ∧
      e.runner.uploadTest ctx s2 = .error .cancelled) ∧
    e.CollectWithContext ctx elapsed =
      [⟨.up, 0, []⟩, ⟨.scrapeDuration, elapsed, []⟩] := by
  have hstage := fun s2 => hr ctx s2 hc
  refine ⟨hstage, ?_⟩
  have hsp := speedtest_of_ok e ctx user servers server hu hs hsel
  have h1 : stageObs e ctx user server = [] := by
    rw [stageObs_eq, (hstage server).1,
      (hstage (serverAfterPing e ctx server)).2.1,
      (hstage (serverAfterDownload e ctx server)).2.2]
    rfl
  have h2 : stagesOkB e ctx server = false := by
    simp [stagesOkB, (hstage server).1, isOkE]
  simp [Exporter.CollectWithContext, hsp, h1, h2]

/-- C8 witness: a cancellation-aware runner under a cancelled scope, with
the directory fetches succeeding, produces exactly the degraded pair. -/
theorem cancelled_stage_failure_witness :
    (NewWithDeps (-1) false okClient cancelRunner).CollectWithContext
        ⟨true⟩ 3 = [⟨.up, 0, []⟩, ⟨.scrapeDuration, 3, []⟩] :=
  (cancelled_stage_failure (NewWithDeps (-1) false okClient cancelRunner)
      ⟨true⟩ 3 testUser [testServer] testServer
      (by
        intro ctx s hcc
        refine ⟨?_, ?_, ?_⟩ <;> simp [NewWithDeps, cancelRunner, hcc])
      rfl rfl rfl (by rfl)).2

/-- The per-identifier loop returns, in request order, one exactly-matching
target per requested identifier whenever every requested identifier has an
exact match and the capability is exact on those. -/
theorem selectTargets_exact
    (find : List Server → Int → Except Err (List Server)) (fallback : Bool)
    (servers : List Server) (hex : ExactFind find servers) :
    ∀ ids : List Int, (∀ id ∈ ids, ∃ s ∈ servers, s.id = toString id) →
      ∃ ts, selectTargets find fallback servers ids = .ok ts ∧
        ts.map Server.id = ids.map toString := by
  intro ids
  induction ids with
  | nil => exact fun _ => ⟨[], rfl, rfl⟩
  | cons id rest ih =>
    intro hall
    obtain ⟨t, ts0, hf, hid⟩ := hex id (hall id (by simp))
    obtain ⟨ts, hrec, hmap⟩ := ih (fun i hi => hall i (by simp [hi]))
    refine ⟨t :: ts, ?_, ?_⟩
    · simp only [selectTargets, hf]
      rw [if_neg (by simp [hid])]
      simp [hrec]
    · simp [hmap, hid]

/-- The concrete exact-match capability `filterFind` satisfies the
exactness contract on every candidate list. -/
theorem filterFind_exact (servers : List Server) :
    ExactFind filterFind servers := by
  rintro id ⟨s, hs, hid⟩
  rcases hfil : servers.filter (fun x => x.id = toString id) with _ | ⟨t, ts⟩
  · exfalso
    have hmem : s ∈ servers.filter (fun x => x.id = toString id) :=
      List.mem_filter.mpr ⟨hs, by simp [hid]⟩
    rw [hfil] at hmem
    simp at hmem
  · refine ⟨t, ts, ?_, ?_⟩
    · simp [filterFind, hfil]
    · have hmem : t ∈ servers.filter (fun x => x.id = toString id) := by
        rw [hfil]
        simp
      simpa using (List.mem_filter.mp hmem).2

/-- C4: for a request of multiple identifiers with fallback disabled, if
every requested identifier has an exact match in the candidate list (and
the identifier-match capability is exact on them), selection returns one
target per requested identifier, in request order, without deduplicating
duplicate requested identifiers. -/
theorem selectServers_exact_order
    (find : List Server → Int → Except Err (List Server)) (fallback : Bool)
    (servers : List Server) (ids : List Int)
    (hex : ExactFind find servers)
    (hall : ∀ id ∈ ids, ∃ s ∈ servers, s.id = toString id)
    (hmulti : 2 ≤ ids.length) (hfb : fallback = false) :
    ∃ ts, selectServers find ids fallback servers = .ok ts ∧
      ts.length = ids.length ∧ ts.map Server.id = ids.map toString := by
  obtain ⟨ts, hsel, hmap⟩ :=
    selectTargets_exact find fallback servers hex ids hall
  have hservers : servers ≠ [] := by
    rcases ids with _ | ⟨id0, rest⟩
    · simp at hmulti
    · obtain ⟨s, hs, _⟩ := hall id0 (by simp)
      intro hnil
      rw [hnil] at hs
      simp at hs
  have hids : ids ≠ [-1] := by
    intro h
    rw [h] at hmulti
    simp at hmulti
  rcases servers with _ | ⟨s0, srest⟩
  · exact absurd rfl hservers
  · refine ⟨ts, ?_, ?_, hmap⟩
    · simp only [selectServers]
      rw [if_neg hids]
      exact hsel
    · have hlen := congrArg List.length hmap
      simpa using hlen

/-- C4 witness: requesting ids 100 and 200 against candidates with exactly
those identifiers yields both targets, in request order. -/
theorem selectServers_exact_order_witness :
    ∃ ts, selectServers filterFind [100, 200] false
        [testServer, testServer2] = .ok ts ∧
      ts.length = 2 ∧
      ts.map Server.id = ([100, 200] : List Int).map toString := by
  obtain ⟨ts, h1, h2, h3⟩ := selectServers_exact_order filterFind false
    [testServer, testServer2] [100, 200]
    (filterFind_exact [testServer, testServer2])
    (by
      intro id hid
      rcases List.mem_cons.mp hid with rfl | hid2
      · exact ⟨testServer, by simp, by rfl⟩
      · rcases List.mem_cons.mp hid2 with rfl | hid3
        · exact ⟨testServer2, by simp, by rfl⟩
        · exact absurd hid3 (by simp))
    (by simp) rfl
  exact ⟨ts, h1, h2, h3⟩

/-- The gate invariant holds initially. -/
theorem gateInv_init : GateInv GateSys.init := by
  unfold GateInv GateSys.init
  simp

/-- One step preserves the gate invariant. -/
theorem gateInv_step {s t : GateSys} (hi : GateInv s) (hstep : GateStep s t) :
    GateInv t := by
  obtain ⟨h1, h2⟩ := hi
  cases hstep with
  | acquireA ha hh =>
      constructor
      · simp
      · rintro ⟨_, hbr⟩
        have hht := h1.mpr (Or.inr hbr)
        rw [hh] at hht
        exact absurd hht (by simp)
  | busyA ha hh =>
      have hbr : s.b = .running := by
        rcases h1.mp hh with h | h
        · rw [ha] at h
          exact absurd h (by simp)
        · exact h
      constructor
      · constructor
        · intro _
          exact Or.inr hbr
        · intro _
          exact hh
      · rintro ⟨hcontra, _⟩
        exact absurd hcontra (by simp)
  | releaseA ha =>
      constructor
      · constructor
        · intro h
          exact absurd h (by simp)
        · rintro (h | h)
          · exact absurd h (by simp)
          · exact absurd ⟨ha, h⟩ h2
      · rintro ⟨h, _⟩
        exact absurd h (by simp)
  | acquireB hb hh =>
      constructor
      · simp
      · rintro ⟨har, _⟩
        have hht := h1.mpr (Or.inl har)
        rw [hh] at hht
        exact absurd hht (by simp)
  | busyB hb hh =>
      have har : s.a = .running := by
        rcases h1.mp hh with h | h
        · exact h
        · rw [hb] at h
          exact absurd h (by simp)
      constructor
      · constructor
        · intro _
          exact Or.inl har
        · intro _
          exact hh
      · rintro ⟨_, hcontra⟩
        exact absurd hcontra (by simp)
  | releaseB hb =>
      constructor
      · constructor
        · intro h
          exact absurd h (by simp)
        · rintro (h | h)
          · exact absurd ⟨h, hb⟩ h2
          · exact absurd h (by simp)
      · rintro ⟨_, h⟩
        exact absurd h (by simp)

/-- The gate invariant holds in every reachable state. -/
theorem gateInv_reach {s : GateSys} (h : GateReach s) : GateInv s := by
  induction h with
  | init => exact gateInv_init
  | step hr hstep ih => exact gateInv_step ih hstep

/-- C9: at most one guarded run executes at a time; while the gate is held,
a second concurrent attempt that moves at all completes immediately with the
busy answer (it is never queued); a running handler keeps the gate held
until its single releasing exit, which frees the gate; and a completed
handler never acts (so never releases) again. -/
theorem gate_exclusive_nonblocking :
    (∀ s : GateSys, GateReach s →
      ¬ (s.a = Phase.running ∧ s.b = Phase.running)) ∧
    (∀ s t : GateSys, GateReach s → s.held = true → s.b = Phase.start →
      GateStep s t → t.b ≠ s.b → t.b = Phase.doneBusy) ∧
    (∀ s t : GateSys, GateReach s → s.a = Phase.running → GateStep s t →
      (t.a = Phase.running ∧ t.held = true) ∨
      (t.a = Phase.doneServed ∧ t.held = false ∧ s.held = true)) ∧
    (∀ s t : GateSys, GateStep s t → s.a = Phase.doneServed →
      t.a = Phase.doneServed) := by
  refine ⟨?_, ?_, ?_, ?_⟩
  · intro s hr
    exact (gateInv_reach hr).2
  · intro s t hr hheld hb hstep hne
    cases hstep with
    | acquireA ha hh => exact absurd rfl hne
    | busyA ha hh => exact absurd rfl hne
    | releaseA ha => exact absurd rfl hne
    | acquireB hb2 hh =>
        rw [hheld] at hh
        exact absurd hh (by simp)
    | busyB hb2 hh => rfl
    | releaseB hb2 =>
        rw [hb] at hb2
        exact absurd hb2 (by simp)
  · intro s t hr ha hstep
    have hinv := gateInv_reach hr
    cases hstep with
    | acquireA ha2 hh =>
        rw [ha] at ha2
        exact absurd ha2 (by simp)
    | busyA ha2 hh =>
        rw [ha] at ha2
        exact absurd ha2 (by simp)
    | releaseA ha2 =>
        exact Or.inr ⟨rfl, rfl, hinv.1.mpr (Or.inl ha2)⟩
    | acquireB hb hh => exact Or.inl ⟨ha, rfl⟩
    | busyB hb hh => exact Or.inl ⟨ha, hinv.1.mpr (Or.inl ha)⟩
    | releaseB hb => exact absurd ⟨ha, hb⟩ hinv.2
  · intro s t hstep ha
    cases hstep with
    | acquireA ha2 hh =>
        rw [ha] at ha2
        exact absurd ha2 (by simp)
    | busyA ha2 hh =>
        rw [ha] at ha2
        exact absurd ha2 (by simp)
    | releaseA ha2 =>
        rw [ha] at ha2
    | acquireB hb hh => exact ha
    | busyB hb hh => exact ha
    | releaseB hb => exact ha

/-- C9 witness: from the reachable state where handler A holds the gate and
handler B is about to try, B's only move completes with the busy answer. -/
theorem gate_exclusive_nonblocking_witness :
    (⟨true, Phase.running, Phase.doneBusy⟩ : GateSys).b =
      Phase.doneBusy :=
  gate_exclusive_nonblocking.2.1 ⟨true, .running, .start⟩
    ⟨true, .running, .doneBusy⟩
    (GateReach.step GateReach.init (GateStep.acquireA GateSys.init rfl rfl))
    rfl rfl (GateStep.busyB ⟨true, .running, .start⟩ rfl rfl) (by decide)

end SpeedtestExporter
